import Mathlib

set_option autoImplicit false

namespace Annet

/-! Shallow embedding of the annet configuration-resolution and routing-policy
core.  The merge machinery (annet/mesh/basemodel.py) and the rpl submodules
(action, condition, policy, result, routemap, statement_builder) are not among
the sources; only their declarations in src/annet/mesh/peer_models.py and
src/annet/rpl/init.py are.  Definitions for those parts are modelled from the
spec and say so in their doc comments; everything else is translated from the
source files under src/. -/

/-- Modelled from the spec: value kinds of resolvable fields (spec section 3:
boolean, integer, string, optional string, set-of-enum, and a small structured
record such as the BFD timer pair).  The concrete value classes live in
annet/bgp_models.py and annet/mesh/basemodel.py, which are not among the
sources. -/
inductive Value where
  | b (x : Bool)
  | i (x : Int)
  | s (x : String)
  | vnone
  | vset (x : Finset String)
  | timers (rx tx : Nat)
deriving DecidableEq

/-- Modelled from the spec: the merge strategy of a field, override-wins or
union-merge (spec section 3); the strategy enumeration itself belongs to the
missing annet/mesh/basemodel.py. -/
inductive MergeStrategy where
  | override
  | union
deriving DecidableEq

/-- Modelled from the spec: a Configuration Layer is an immutable mapping from
field name to an optional value (absent means not set at this layer), here an
association list. -/
abbrev Layer := List (String × Value)

def layerGet (l : Layer) (f : String) : Option Value :=
  (l.find? (fun p => p.1 == f)).map (fun p => p.2)

/-- Modelled from the spec: the Field Registry returns the merge strategy of a
known field name and none for an unknown one (spec section 4.1); the registry
object belongs to the missing annet/mesh/basemodel.py. -/
abbrev Registry := String → Option MergeStrategy

inductive ResolvedValue where
  | unset
  | val (v : Value)
deriving DecidableEq

inductive ResolveError where
  | unknownField (f : String)
deriving DecidableEq

/-- Modelled from the spec: step 2 of the resolution algorithm (spec section
4.2); collect the value, if present, from every layer in the stack, preserving
stack order. -/
def collectValues (stack : List Layer) (f : String) : List Value :=
  stack.filterMap (fun l => layerGet l f)

/-- Modelled from the spec: the set denoted by a stored value.  Union fields
hold set values by construction: Type-Mismatch is rejected when a layer is
built, never at resolution time (spec section 4.2), so resolution only meets
the vset case for union fields. -/
def valueSet : Value → Finset String
  | .vset x => x
  | _ => ∅

/-- Modelled from the spec: resolve one field against a layer stack (spec
section 4.2, the per-field algorithm of the missing resolver): look up the
merge strategy, failing with Unknown-Field if absent; Override takes the value
of the last (most specific) defining layer, or unset; Union folds set union
over the values of all defining layers, starting from the empty set. -/
def resolveField (reg : Registry) (stack : List Layer) (f : String) :
    Except ResolveError ResolvedValue :=
  match reg f with
  | none => .error (.unknownField f)
  | some .override =>
    .ok (match (collectValues stack f).getLast? with
      | none => .unset
      | some v => .val v)
  | some .union =>
    .ok (.val (.vset ((collectValues stack f).foldl
      (fun acc v => acc ∪ valueSet v) ∅)))

/-- Modelled from the spec: resolve a whole field set in order; the first
unknown field aborts resolution with an Unknown-Field error (spec sections 4.2
and 7: the error is surfaced to the caller, never swallowed). -/
def resolve (reg : Registry) (stack : List Layer) :
    List String → Except ResolveError (List (String × ResolvedValue))
  | [] => .ok []
  | f :: rest =>
    match resolveField reg stack f with
    | .error e => .error e
    | .ok v =>
      match resolve reg stack rest with
      | .error e => .error e
      | .ok r => .ok ((f, v) :: r)

def recordGet (r : List (String × ResolvedValue)) (f : String) :
    Option ResolvedValue :=
  (r.find? (fun p => p.1 == f)).map (fun p => p.2)

/-- Value of the last (most specific) layer of the stack that defines the
field, stated by structural recursion from the front for use in proofs. -/
def lastDefining : List Layer → String → Option Value
  | [], _ => none
  | l :: rest, f =>
    match lastDefining rest f with
    | some v => some v
    | none => layerGet l f

/-- Union of the set values of all layers of the stack that define the field,
stated by structural recursion over the stack for use in proofs. -/
def unionAll : List Layer → String → Finset String
  | [], _ => ∅
  | l :: rest, f =>
    (match layerGet l f with
     | none => ∅
     | some v => valueSet v) ∪ unionAll rest f

def toResolved : Option Value → ResolvedValue
  | some v => .val v
  | none => .unset

/-- Field names declared on the _SharedOptionsDTO class of
src/annet/mesh/peer_models.py (lines 9-19). -/
def sharedOptionFields : List String :=
  ["add_path", "multipath", "advertise_irb", "send_labeled", "send_community",
   "bfd", "bfd_timers"]

/-- Field names declared directly on SessionDTO (peer_models.py lines 22-36). -/
def sessionOwnFields : List String :=
  ["asnum", "vrf", "name", "families", "group_name", "subif", "bmp_monitor",
   "import_policy", "export_policy"]

/-- Field names declared directly on _OptionsDTO (peer_models.py lines 39-79). -/
def optionsOwnFields : List String :=
  ["unnumbered", "rr_client", "next_hop_self", "extended_next_hop",
   "send_lcommunity", "send_extcommunity", "import_limit", "teardown_timeout",
   "redistribute", "passive", "mtu_discovery", "advertise_inactive",
   "advertise_bgp_static", "allowas_in", "auth_key", "multihop",
   "multihop_no_nexthop_change", "af_no_install", "rib", "resolve_vpn",
   "af_rib_group", "af_loops", "hold_time", "listen_network", "remove_private",
   "as_override", "aigp", "no_prepend", "no_explicit_null", "uniq_iface",
   "advertise_peer_as", "connect_retry", "advertise_external", "listen_only",
   "soft_reconfiguration_inbound", "not_active", "mtu"]

/-- Field names declared directly on PeerDTO (peer_models.py lines 82-90). -/
def peerOwnFields : List String :=
  ["pod", "addr", "description", "lagg", "lagg_links_min", "group_name"]

/-- Field names declared directly on MeshPeerGroup (peer_models.py
lines 93-98). -/
def meshPeerGroupOwnFields : List String :=
  ["name", "remote_as", "internal_name", "update_source", "description"]

/-- Fields of the full-peer shape: PeerDTO inherits SessionDTO and
_OptionsDTO, which both inherit _SharedOptionsDTO. -/
def peerFields : List String :=
  (sharedOptionFields ++ sessionOwnFields ++ optionsOwnFields ++
    peerOwnFields).dedup

/-- Fields of the session shape SessionDTO. -/
def sessionFields : List String :=
  (sharedOptionFields ++ sessionOwnFields).dedup

/-- Fields of the peer-group shape MeshPeerGroup. -/
def meshPeerGroupFields : List String :=
  (sharedOptionFields ++ optionsOwnFields ++ meshPeerGroupOwnFields).dedup

/-- Field Registry for the mesh peer models.  The families field is declared
with the Concat annotation in src/annet/mesh/peer_models.py line 29 and merges
by union; every other declared field carries no merge annotation and follows
the override strategy.  The lookup machinery itself is modelled from the spec
(section 4.1), since annet/mesh/basemodel.py is not among the sources. -/
def meshStrategy (f : String) : Option MergeStrategy :=
  if (peerFields ++ meshPeerGroupFields).contains f then
    some (if f == "families" then .union else .override)
  else
    none

instance exceptDecidableEq {ε α : Type} [DecidableEq ε] [DecidableEq α] :
    DecidableEq (Except ε α) := fun a b =>
  match a, b with
  | .error e1, .error e2 =>
    if h : e1 = e2 then .isTrue (by rw [h]) else .isFalse (by simp [h])
  | .error _, .ok _ => .isFalse (by simp)
  | .ok _, .error _ => .isFalse (by simp)
  | .ok v1, .ok v2 =>
    if h : v1 = v2 then .isTrue (by rw [h]) else .isFalse (by simp [h])

/-! Lemmas about the resolver. -/

theorem collect_getLast?_eq_lastDefining (stack : List Layer) (f : String) :
    (collectValues stack f).getLast? = lastDefining stack f := by
  induction stack with
  | nil => rfl
  | cons l rest ih =>
    cases h : layerGet l f with
    | none =>
      have hc : collectValues (l :: rest) f = collectValues rest f := by
        simp only [collectValues, List.filterMap_cons, h]
      have hl : lastDefining (l :: rest) f = lastDefining rest f := by
        simp only [lastDefining, h]
        cases lastDefining rest f <;> rfl
      rw [hc, hl, ih]
    | some v =>
      have hc : collectValues (l :: rest) f = v :: collectValues rest f := by
        simp only [collectValues, List.filterMap_cons, h]
      rw [hc, List.getLast?_cons, ih]
      cases h2 : lastDefining rest f with
      | none => simp [lastDefining, h, h2]
      | some w => simp [lastDefining, h2]

theorem resolveField_override (reg : Registry) (stack : List Layer) (f : String)
    (hov : reg f = some .override) :
    resolveField reg stack f = .ok (toResolved (lastDefining stack f)) := by
  unfold resolveField
  rw [hov, collect_getLast?_eq_lastDefining]
  cases lastDefining stack f <;> rfl

theorem foldl_union_eq_unionAll (stack : List Layer) (f : String) :
    ∀ init : Finset String,
      (collectValues stack f).foldl (fun acc v => acc ∪ valueSet v) init =
        init ∪ unionAll stack f := by
  induction stack with
  | nil => intro init; simp [collectValues, unionAll]
  | cons l rest ih =>
    intro init
    cases h : layerGet l f with
    | none =>
      have hc : collectValues (l :: rest) f = collectValues rest f := by
        simp only [collectValues, List.filterMap_cons, h]
      rw [hc, ih init]
      simp [unionAll, h]
    | some v =>
      have hc : collectValues (l :: rest) f = v :: collectValues rest f := by
        simp only [collectValues, List.filterMap_cons, h]
      rw [hc, List.foldl_cons, ih (init ∪ valueSet v), Finset.union_assoc]
      simp [unionAll, h]

theorem resolveField_union (reg : Registry) (stack : List Layer) (f : String)
    (hu : reg f = some .union) :
    resolveField reg stack f = .ok (.val (.vset (unionAll stack f))) := by
  simp [resolveField, hu, foldl_union_eq_unionAll]

theorem resolveField_ok_of_known (reg : Registry) (stack : List Layer)
    (f : String) (h : (reg f).isSome) :
    ∃ v, resolveField reg stack f = .ok v := by
  unfold resolveField
  cases hst : reg f with
  | none => simp [hst] at h
  | some st => cases st <;> exact ⟨_, rfl⟩

theorem resolve_ok_of_known (reg : Registry) (stack : List Layer)
    (fields : List String) (h : ∀ g ∈ fields, (reg g).isSome) :
    ∃ rec, resolve reg stack fields = .ok rec := by
  induction fields with
  | nil => exact ⟨[], rfl⟩
  | cons f rest ih =>
    obtain ⟨v, hv⟩ := resolveField_ok_of_known reg stack f (h f (by simp))
    obtain ⟨rec, hrec⟩ := ih (fun g hg => h g (by simp [hg]))
    exact ⟨(f, v) :: rec, by simp [resolve, hv, hrec]⟩

theorem unionAll_perm {s1 s2 : List Layer} (f : String) (hp : s1.Perm s2) :
    unionAll s1 f = unionAll s2 f := by
  induction hp with
  | nil => rfl
  | cons x _ ih => simp [unionAll, ih]
  | swap x y l =>
    simp only [unionAll]
    rw [Finset.union_left_comm]
  | trans _ _ ih1 ih2 => exact ih1.trans ih2

theorem unionAll_empty_of_no_layer (stack : List Layer) (f : String)
    (hnone : ∀ l ∈ stack, layerGet l f = none) :
    unionAll stack f = ∅ := by
  induction stack with
  | nil => rfl
  | cons l rest ih =>
    simp [unionAll, hnone l (by simp),
      ih (fun x hx => hnone x (by simp [hx]))]

/-! Resolution claims. -/

/-- C1: for every layer stack and every Override-strategy field of the
requested field set (all of whose names the registry knows), resolve succeeds
and the field resolves to the value of the last (most specific) layer of the
stack that defines it, earlier definitions being discarded; when no layer
defines it the field is unset in the resolved record. -/
theorem override_resolves_to_last_defining_layer
    (reg : Registry) (stack : List Layer) (fields : List String) (f : String)
    (hall : ∀ g ∈ fields, (reg g).isSome)
    (hf : f ∈ fields) (hov : reg f = some .override) :
    ∃ rec, resolve reg stack fields = .ok rec ∧
      recordGet rec f = some (toResolved (lastDefining stack f)) := by
  revert hall hf
  induction fields with
  | nil => intro _ hf; cases hf
  | cons g rest ih =>
    intro hall hf
    obtain ⟨v, hv⟩ := resolveField_ok_of_known reg stack g (hall g (by simp))
    by_cases hgf : g = f
    · subst hgf
      have hveq : Except.ok (ε := ResolveError) v =
          .ok (toResolved (lastDefining stack g)) := by
        rw [← hv, resolveField_override reg stack g hov]
      have hv2 : v = toResolved (lastDefining stack g) := by
        injection hveq
      obtain ⟨rec, hrec⟩ := resolve_ok_of_known reg stack rest
        (fun x hx => hall x (by simp [hx]))
      refine ⟨(g, v) :: rec, by simp [resolve, hv, hrec], ?_⟩
      simp [recordGet, hv2]
    · have hfrest : f ∈ rest := by
        rcases List.mem_cons.mp hf with h1 | h1
        · exact absurd h1.symm hgf
        · exact h1
      obtain ⟨rec, hrec, hget⟩ :=
        ih (fun x hx => hall x (by simp [hx])) hfrest
      refine ⟨(g, v) :: rec, by simp [resolve, hv, hrec], ?_⟩
      have hne : (g == f) = false := by
        simp [hgf]
      simpa [recordGet, List.find?, hne] using hget

/-- Witness for C1 at the mesh registry: the hold_time field, defined as 30 at
the group layer and 90 at the peer layer, resolves to the value of the last
layer. -/
theorem override_resolves_to_last_defining_layer_witness :
    (∀ g ∈ (["hold_time"] : List String), (meshStrategy g).isSome) ∧
    ∃ rec, resolve meshStrategy
        [[("hold_time", Value.i 30)], [("hold_time", Value.i 90)]]
        ["hold_time"] = .ok rec ∧
      recordGet rec "hold_time" = some (toResolved (lastDefining
        [[("hold_time", Value.i 30)], [("hold_time", Value.i 90)]]
        "hold_time")) :=
  ⟨by decide,
   override_resolves_to_last_defining_layer meshStrategy
     [[("hold_time", Value.i 30)], [("hold_time", Value.i 90)]]
     ["hold_time"] "hold_time" (by decide) (by decide) (by decide)⟩

/-- C2: for every Union-strategy field, resolution yields the set union of the
values of all layers that define the field (a Finset, so duplicate entries
collapse); the result is invariant under reordering of the layer stack; when no
layer defines the field the result is the empty set, which is a value and hence
distinguishable from the unset marker of an undefined Override field. -/
theorem union_resolves_to_union_of_defining_layers
    (reg : Registry) (f : String) (hu : reg f = some .union) :
    (∀ stack, resolveField reg stack f = .ok (.val (.vset (unionAll stack f)))) ∧
    (∀ s1 s2 : List Layer, s1.Perm s2 →
      resolveField reg s1 f = resolveField reg s2 f) ∧
    (∀ stack : List Layer, (∀ l ∈ stack, layerGet l f = none) →
      resolveField reg stack f = .ok (.val (.vset (∅ : Finset String)))) ∧
    ResolvedValue.val (.vset ∅) ≠ ResolvedValue.unset := by
  refine ⟨fun stack => resolveField_union reg stack f hu, ?_, ?_, by simp⟩
  · intro s1 s2 hp
    rw [resolveField_union reg s1 f hu, resolveField_union reg s2 f hu,
      unionAll_perm f hp]
  · intro stack hnone
    rw [resolveField_union reg stack f hu,
      unionAll_empty_of_no_layer stack f hnone]

/-- Witness for C2 at the mesh registry and the families field of
SessionDTO: a two-layer stack contributing distinct singleton sets resolves to
their two-element union. -/
theorem union_resolves_to_union_of_defining_layers_witness :
    meshStrategy "families" = some .union ∧
    resolveField meshStrategy
      [[("families", Value.vset {"ipv4_unicast"})],
       [("families", Value.vset {"ipv6_unicast"})]] "families" =
      .ok (.val (.vset ({"ipv4_unicast", "ipv6_unicast"} : Finset String))) :=
  ⟨by decide,
   ((union_resolves_to_union_of_defining_layers meshStrategy "families"
       (by decide)).1
     [[("families", Value.vset {"ipv4_unicast"})],
      [("families", Value.vset {"ipv6_unicast"})]]).trans (by decide)⟩

/-- C5: with the two-layer mesh stack ordered group first (least specific) and
peer second (most specific), an Override-strategy field defined with different
values at both levels resolves to the peer-level value, and a Union-strategy
field resolves to the union of the group-level and peer-level sets, both
levels contributing. -/
theorem peer_level_outranks_group_level (f : String) (group peer : Layer) :
    (∀ vg vp : Value, meshStrategy f = some .override →
      layerGet group f = some vg → layerGet peer f = some vp → vg ≠ vp →
      resolveField meshStrategy [group, peer] f = .ok (.val vp)) ∧
    (∀ sg sp : Finset String, meshStrategy f = some .union →
      layerGet group f = some (.vset sg) → layerGet peer f = some (.vset sp) →
      resolveField meshStrategy [group, peer] f =
        .ok (.val (.vset (sg ∪ sp)))) := by
  constructor
  · intro vg vp hov hg hp _
    rw [resolveField_override meshStrategy [group, peer] f hov]
    simp [lastDefining, hp, toResolved]
  · intro sg sp hu hg hp
    rw [resolveField_union meshStrategy [group, peer] f hu]
    simp [unionAll, hg, hp, valueSet]

/-- Witness for C5: multipath set false at the group and true at the peer
resolves to true; families set ipv4 at the group and ipv6 at the peer
resolves to the union of both. -/
theorem peer_level_outranks_group_level_witness :
    resolveField meshStrategy
      [[("multipath", Value.b false)], [("multipath", Value.b true)]]
      "multipath" = .ok (.val (.b true)) ∧
    resolveField meshStrategy
      [[("families", Value.vset {"ipv4_unicast"})],
       [("families", Value.vset {"ipv6_unicast"})]] "families" =
      .ok (.val (.vset (({"ipv4_unicast"} : Finset String) ∪
        {"ipv6_unicast"}))) :=
  ⟨(peer_level_outranks_group_level "multipath"
      [("multipath", Value.b false)] [("multipath", Value.b true)]).1
    (Value.b false) (Value.b true) (by decide) (by decide) (by decide)
    (by decide),
   (peer_level_outranks_group_level "families"
      [("families", Value.vset {"ipv4_unicast"})]
      [("families", Value.vset {"ipv6_unicast"})]).2
    {"ipv4_unicast"} {"ipv6_unicast"} (by decide) (by decide) (by decide)⟩

theorem resolve_error_of_unknown (reg : Registry) (stack : List Layer)
    (f : String) :
    ∀ fields : List String, f ∈ fields → reg f = none →
      ∃ g, reg g = none ∧
        resolve reg stack fields = .error (.unknownField g) := by
  intro fields
  induction fields with
  | nil => intro hf; cases hf
  | cons g rest ih =>
    intro hf hnone
    cases hst : reg g with
    | none =>
      exact ⟨g, hst, by simp [resolve, resolveField, hst]⟩
    | some st =>
      have hgf : f ≠ g := by
        rintro rfl
        rw [hnone] at hst
        cases hst
      have hfr : f ∈ rest := by
        rcases List.mem_cons.mp hf with h1 | h1
        · exact absurd h1 hgf
        · exact h1
      obtain ⟨g2, hg2, hres⟩ := ih hfr hnone
      obtain ⟨v, hv⟩ := resolveField_ok_of_known reg stack g (by simp [hst])
      exact ⟨g2, hg2, by simp [resolve, hv, hres]⟩

/-- C6: a registry lookup for a field name outside the registry fails with an
Unknown-Field error, and resolve over a field set containing such a name fails
with an Unknown-Field error for an unknown name, surfacing the error to the
caller instead of producing a record. -/
theorem unknown_field_always_surfaced
    (reg : Registry) (stack : List Layer) (fields : List String) (f : String)
    (hf : f ∈ fields) (hnone : reg f = none) :
    resolveField reg stack f = .error (.unknownField f) ∧
    ∃ g, reg g = none ∧
      resolve reg stack fields = .error (.unknownField g) := by
  refine ⟨by simp [resolveField, hnone], ?_⟩
  exact resolve_error_of_unknown reg stack f fields hf hnone

/-- Witness for C6: the name bogus is not a field of the mesh models, so
resolving a field set that contains it errors out. -/
theorem unknown_field_always_surfaced_witness :
    ("bogus" ∈ (["multipath", "bogus"] : List String)) ∧
    resolveField meshStrategy [] "bogus" = .error (.unknownField "bogus") ∧
    ∃ g, meshStrategy g = none ∧
      resolve meshStrategy [] ["multipath", "bogus"] =
        .error (.unknownField g) :=
  ⟨by decide,
   unknown_field_always_surfaced meshStrategy [] ["multipath", "bogus"]
     "bogus" (by decide) (by decide)⟩

/-! Condition model.  The annet.rpl condition module (SingleCondition,
AndCondition, ConditionOperator) is not among the sources; only its import in
src/annet/rpl/init.py is.  The model below follows spec section 4.3. -/

/-- Modelled from the spec: the fixed comparison-operator set of leaf
conditions (spec section 4.3): equals, not-equals, is-subset-of, is-member-of,
greater-than and less-than; the ConditionOperator enumeration itself belongs
to the missing annet/rpl/condition.py. -/
inductive CompOp where
  | eq
  | ne
  | subsetOf
  | memberOf
  | gt
  | lt
deriving DecidableEq

/-- Modelled from the spec: evaluation of one comparison operator on the
attribute value found in the context and the literal comparand; ordinal
comparisons apply to integers, set comparisons to set values. -/
def evalOp : CompOp → Value → Value → Bool
  | .eq, v, c => v = c
  | .ne, v, c => v ≠ c
  | .subsetOf, .vset a, .vset c => a ⊆ c
  | .memberOf, .s x, .vset c => x ∈ c
  | .gt, .i a, .i c => a > c
  | .lt, .i a, .i c => a < c
  | _, _, _ => false

mutual

/-- Modelled from the spec: a condition is a leaf (attribute name, operator,
comparand) or a composite with AND semantics over an ordered list of children
(spec sections 3 and 4.3); the SingleCondition and AndCondition classes belong
to the missing annet/rpl/condition.py. -/
inductive Condition where
  | leaf (attr : String) (op : CompOp) (cmp : Value)
  | comp (children : CondList)

inductive CondList where
  | nil
  | cons (c : Condition) (rest : CondList)

end

/-- Modelled from the spec: an evaluation context maps attribute names to
values; contexts may be partial. -/
abbrev Context := List (String × Value)

def ctxGet (ctx : Context) (attr : String) : Option Value :=
  (ctx.find? (fun p => p.1 == attr)).map (fun p => p.2)

mutual

/-- Modelled from the spec: pure, total evaluation of a condition against a
context (spec section 4.3); a leaf whose attribute is absent from the context
yields non-match rather than an error (spec section 7,
Unknown-Attribute-In-Condition); composite children are combined with
short-circuit AND in child order. -/
def condMatches : Condition → Context → Bool
  | .leaf attr op cmp, ctx =>
    match ctxGet ctx attr with
    | none => false
    | some v => evalOp op v cmp
  | .comp cs, ctx => allMatch cs ctx

def allMatch : CondList → Context → Bool
  | .nil, _ => true
  | .cons c rest, ctx => condMatches c ctx && allMatch rest ctx

end

/-- C7: a leaf condition whose attribute is absent from the evaluation context
evaluates to non-match, and a composite condition containing such a leaf still
evaluates (to a boolean, not an error): the absent attribute never fails the
tree, so evaluation over partial contexts is total. -/
theorem absent_attribute_leaf_is_non_match
    (ctx : Context) (attr : String) (op : CompOp) (cmp : Value)
    (h : ctxGet ctx attr = none) :
    condMatches (.leaf attr op cmp) ctx = false ∧
    ∀ rest : CondList,
      condMatches (.comp (.cons (.leaf attr op cmp) rest)) ctx = false := by
  have hleaf : condMatches (.leaf attr op cmp) ctx = false := by
    unfold condMatches
    rw [h]
  refine ⟨hleaf, fun rest => ?_⟩
  show (condMatches (.leaf attr op cmp) ctx && allMatch rest ctx) = false
  rw [hleaf]
  rfl

/-- Witness for C7: the attribute med is absent from a context that only binds
community, so the leaf does not match and neither does an enclosing AND. -/
theorem absent_attribute_leaf_is_non_match_witness :
    ctxGet [("community", Value.s "65000:100")] "med" = none ∧
    condMatches (.leaf "med" .eq (Value.i 50))
      [("community", Value.s "65000:100")] = false :=
  ⟨by decide,
   (absent_attribute_leaf_is_non_match [("community", Value.s "65000:100")]
     "med" .eq (Value.i 50) (by decide)).1⟩

/-! Policy model.  The annet.rpl policy, action and result modules are not
among the sources; only their imports in src/annet/rpl/init.py are.  The model
below follows spec sections 3 and 4.5 and keeps the class names of the rpl
package. -/

/-- Modelled from the spec: the terminal result of a statement (spec section
3): accept, reject, or continue-to-next-statement; the ResultType enumeration
belongs to the missing annet/rpl/result.py. -/
inductive ResultType where
  | accept
  | reject
  | next
deriving DecidableEq

/-- Modelled from the spec: one atomic action directive (target attribute or
verb, value), inert data applied when its owning statement matches (spec
sections 3 and 4.4); the SingleAction class belongs to the missing
annet/rpl/action.py. -/
structure SingleAction where
  target : String
  value : Value
deriving DecidableEq

/-- Modelled from the spec: a policy statement (name for ordering and
diagnostics, optional condition where none means always-match, ordered action
list, terminal result); the RoutingPolicyStatement class belongs to the
missing annet/rpl/policy.py. -/
structure RoutingPolicyStatement where
  name : String
  condition : Option Condition
  actions : List SingleAction
  result : ResultType

/-- Modelled from the spec: a routing policy is a named ordered list of
statements plus a default result (spec section 3); the RoutingPolicy class
belongs to the missing annet/rpl/policy.py. -/
structure RoutingPolicy where
  name : String
  statements : List RoutingPolicyStatement
  defaultResult : ResultType

def stmtMatches (s : RoutingPolicyStatement) (ctx : Context) : Bool :=
  match s.condition with
  | none => true
  | some c => condMatches c ctx

/-- Modelled from the spec: the evaluation state machine of spec section 4.5,
statements taken strictly in list order: a matching statement applies its
actions in order and yields its result; continue-to-next-statement instead
proceeds to the next statement with the actions kept; a non-matching statement
is skipped; an exhausted list yields the default result.  The function returns
the terminal result together with the applied actions in application order. -/
def evalStatements (d : ResultType) (ctx : Context) :
    List RoutingPolicyStatement → ResultType × List SingleAction
  | [] => (d, [])
  | s :: rest =>
    if stmtMatches s ctx then
      match s.result with
      | .next =>
        ((evalStatements d ctx rest).1,
          s.actions ++ (evalStatements d ctx rest).2)
      | .accept => (.accept, s.actions)
      | .reject => (.reject, s.actions)
    else evalStatements d ctx rest

def evaluate (p : RoutingPolicy) (ctx : Context) :
    ResultType × List SingleAction :=
  evalStatements p.defaultResult ctx p.statements

theorem evalStatements_no_match (d : ResultType) (ctx : Context)
    (ss : List RoutingPolicyStatement)
    (h : ∀ t ∈ ss, stmtMatches t ctx = false) :
    evalStatements d ctx ss = (d, []) := by
  induction ss with
  | nil => rfl
  | cons s rest ih =>
    have hs := h s (by simp)
    simp [evalStatements, hs, ih (fun t ht => h t (by simp [ht]))]

theorem evalStatements_skip_nonmatching (d : ResultType) (ctx : Context)
    (pre rest : List RoutingPolicyStatement)
    (h : ∀ t ∈ pre, stmtMatches t ctx = false) :
    evalStatements d ctx (pre ++ rest) = evalStatements d ctx rest := by
  induction pre with
  | nil => rfl
  | cons s p ih =>
    have hs := h s (by simp)
    simp [evalStatements, hs, ih (fun t ht => h t (by simp [ht]))]

/-- C3: statements are examined strictly in list order; the first statement
whose condition matches and whose result is terminal (accept or reject) yields
that result with exactly its actions applied, and whatever statements follow
it are irrelevant to the outcome, so they are never evaluated. -/
theorem first_matching_terminal_statement_decides
    (ctx : Context) (d : ResultType) (pname : String)
    (pre : List RoutingPolicyStatement) (s : RoutingPolicyStatement)
    (rest rest2 : List RoutingPolicyStatement)
    (hpre : ∀ t ∈ pre, stmtMatches t ctx = false)
    (hs : stmtMatches s ctx = true) (hterm : s.result ≠ .next) :
    evaluate ⟨pname, pre ++ s :: rest, d⟩ ctx = (s.result, s.actions) ∧
    evaluate ⟨pname, pre ++ s :: rest, d⟩ ctx =
      evaluate ⟨pname, pre ++ s :: rest2, d⟩ ctx := by
  have key : ∀ r : List RoutingPolicyStatement,
      evaluate ⟨pname, pre ++ s :: r, d⟩ ctx = (s.result, s.actions) := by
    intro r
    show evalStatements d ctx (pre ++ s :: r) = (s.result, s.actions)
    rw [evalStatements_skip_nonmatching d ctx pre (s :: r) hpre]
    cases hres : s.result with
    | accept => simp [evalStatements, hs, hres]
    | reject => simp [evalStatements, hs, hres]
    | next => exact absurd hres hterm
  exact ⟨key rest, (key rest).trans (key rest2).symm⟩

/-- Witness for C3, the first-match testable property of spec section 8: with
S1 never matching (its attribute is absent from the context), S2 always
matching with result accept, and S3 always matching with result reject, the
policy yields accept with the actions of S2, and S3 is irrelevant. -/
theorem first_matching_terminal_statement_decides_witness :
    evaluate
      ⟨"policy",
       [⟨"S1", some (.leaf "med" .eq (Value.i 50)), [], .reject⟩,
        ⟨"S2", none, [⟨"local-pref", Value.i 200⟩], .accept⟩,
        ⟨"S3", none, [], .reject⟩],
       .reject⟩ [] =
      (.accept, [⟨"local-pref", Value.i 200⟩]) :=
  (first_matching_terminal_statement_decides [] .reject "policy"
    [⟨"S1", some (.leaf "med" .eq (Value.i 50)), [], .reject⟩]
    ⟨"S2", none, [⟨"local-pref", Value.i 200⟩], .accept⟩
    [⟨"S3", none, [], .reject⟩] [⟨"S3", none, [], .reject⟩]
    (by decide) (by decide) (by decide)).1

/-- C4: a matching statement whose result is continue-to-next-statement
applies its actions, which stay in effect while evaluation proceeds to the
following statements; when no subsequent statement matches, the policy yields
its default result with the continuing statement's actions still recorded as
applied. -/
theorem continue_statement_keeps_actions_and_proceeds
    (ctx : Context) (d : ResultType) (pname : String)
    (s : RoutingPolicyStatement) (rest : List RoutingPolicyStatement)
    (hs : stmtMatches s ctx = true) (hnext : s.result = .next) :
    evaluate ⟨pname, s :: rest, d⟩ ctx =
      ((evaluate ⟨pname, rest, d⟩ ctx).1,
        s.actions ++ (evaluate ⟨pname, rest, d⟩ ctx).2) ∧
    ((∀ t ∈ rest, stmtMatches t ctx = false) →
      evaluate ⟨pname, s :: rest, d⟩ ctx = (d, s.actions)) := by
  have h1 : evaluate ⟨pname, s :: rest, d⟩ ctx =
      ((evaluate ⟨pname, rest, d⟩ ctx).1,
        s.actions ++ (evaluate ⟨pname, rest, d⟩ ctx).2) := by
    show evalStatements d ctx (s :: rest) = _
    simp [evalStatements, hs, hnext, evaluate]
  refine ⟨h1, fun hrest => ?_⟩
  rw [h1]
  show ((evalStatements d ctx rest).1,
    s.actions ++ (evalStatements d ctx rest).2) = (d, s.actions)
  rw [evalStatements_no_match d ctx rest hrest]
  simp

/-- Witness for C4, the continue-semantics testable property of spec section
8: a matching statement with result continue-to-next-statement followed by a
non-matching statement falls through to the default result, with the
continuing statement's action recorded as applied. -/
theorem continue_statement_keeps_actions_and_proceeds_witness :
    evaluate
      ⟨"policy",
       [⟨"S1", none, [⟨"med", Value.i 10⟩], .next⟩,
        ⟨"S2", some (.leaf "med" .eq (Value.i 50)), [], .accept⟩],
       .reject⟩ [] =
      (.reject, [⟨"med", Value.i 10⟩]) :=
  (continue_statement_keeps_actions_and_proceeds [] .reject "policy"
    ⟨"S1", none, [⟨"med", Value.i 10⟩], .next⟩
    [⟨"S2", some (.leaf "med" .eq (Value.i 50)), [], .accept⟩]
    (by decide) (by decide)).2 (by decide)

/-! The dunder-all list of src/annet/rpl/init.py. -/

/-- List dunder-all of src/annet/rpl/init.py lines 1-17, transcribed with
Python string-literal adjacency semantics: the entries on lines 3 and 4 carry
no separating comma between them, so the two adjacent literals denote the
single concatenated string, written here as the explicit concatenation
"ThenField" ++ "RouteMap". -/
def rplDunderAll : List String :=
  ["MatchField",
   "ThenField" ++ "RouteMap",
   "Route",
   "ResultType",
   "ActionType",
   "Action",
   "SingleAction",
   "AndCondition",
   "R",
   "ConditionOperator",
   "Condition",
   "SingleCondition",
   "RoutingPolicyStatement",
   "RoutingPolicy"]

/-- Names bound in the annet.rpl module namespace by the import statements of
src/annet/rpl/init.py lines 19-25. -/
def rplModuleNames : List String :=
  ["Action", "ActionType", "SingleAction",
   "AndCondition", "Condition", "ConditionOperator", "SingleCondition",
   "R", "MatchField",
   "RoutingPolicyStatement", "RoutingPolicy",
   "ResultType",
   "RouteMap",
   "Route", "ThenField"]

/-- Modelled from Python semantics: a star import from a module that defines
dunder-all binds exactly the listed names and raises AttributeError when some
listed name is not an attribute of the module. -/
def rplStarImportRaises : Bool :=
  rplDunderAll.any (fun n => !(rplModuleNames.contains n))

/-- C8: the dunder-all list of annet.rpl contains the single concatenated
string ThenFieldRouteMap produced by the missing comma, contains neither
ThenField nor RouteMap as separate entries, and since ThenFieldRouteMap is not
an attribute of the module a star import raises AttributeError, even though
ThenField and RouteMap are both importable from the package directly. -/
theorem rpl_dunder_all_missing_comma :
    "ThenFieldRouteMap" ∈ rplDunderAll ∧
    "ThenField" ∉ rplDunderAll ∧
    "RouteMap" ∉ rplDunderAll ∧
    rplStarImportRaises = true ∧
    "ThenField" ∈ rplModuleNames ∧
    "RouteMap" ∈ rplModuleNames := by
  refine ⟨?_, ?_, ?_, ?_, ?_, ?_⟩ <;> decide

/-! Exception flow of the four POST handlers of src/annet/rest_api.py. -/

/-- Modelled from Python semantics: an exception is either a fastapi
HTTPException carrying a status code and a detail string, or any other
exception carrying its message.  HTTPException derives from Exception, so a
blanket except-Exception clause catches it too. -/
inductive PyExc where
  | http (status : Nat) (detail : String)
  | other (msg : String)
deriving DecidableEq

/-- String rendering of an exception as used by str(e): starlette renders an
HTTPException as the status code, a colon and a space, and the detail. -/
def pyStr : PyExc → String
  | .http st d => toString st ++ ": " ++ d
  | .other m => m

/-- Placeholder for the ApiResponse value a handler returns on success. -/
structure ApiResp where
  success : Bool
  message : String
deriving DecidableEq

/-- Common body of the four POST handlers of src/annet/rest_api.py
(generate_config lines 246-299, show_diff lines 302-358, generate_patch lines
361-414, deploy_config lines 417-488): inside the try block, an empty device
list raises HTTPException(404, notFoundDetail) and the remaining work, which
may itself raise, runs otherwise; the final except-Exception clause turns
every exception e escaping the try block into HTTPException(500, str(e)). -/
def handlerBody (devices : List String) (notFoundDetail : String)
    (work : Except PyExc ApiResp) : Except PyExc ApiResp :=
  match (if devices.isEmpty then
          .error (.http 404 notFoundDetail)
        else
          work : Except PyExc ApiResp) with
  | .ok r => .ok r
  | .error e => .error (.http 500 (pyStr e))

/-- C9: when the device query matches no devices, the 404 HTTPException raised
inside the try block is caught by the blanket except clause and re-raised as a
500 whose detail is the rendered 404; and no run of such a handler ever
escapes with a 404 exception, whatever the devices and the inner work do. -/
theorem handlers_turn_404_into_500 :
    (∀ detail work, handlerBody [] detail work =
      .error (.http 500 ("404: " ++ detail))) ∧
    (∀ devices detail work st d,
      handlerBody devices detail work = .error (.http st d) → st = 500) := by
  constructor
  · intro detail work
    rfl
  · intro devices detail work st d h
    unfold handlerBody at h
    cases devices with
    | nil =>
      simp at h
      exact h.1.symm
    | cons a rest =>
      cases work with
      | ok r => simp at h
      | error e =>
        simp at h
        exact h.1.symm

/-- Witness for C9: a handler run with an empty device list yields a 500
whose detail embeds the rendered 404 exception. -/
theorem handlers_turn_404_into_500_witness :
    handlerBody [] "No devices found for query: [test-device]"
        (.ok ⟨true, "ok"⟩) =
      .error (.http 500 ("404: No devices found for query: [test-device]")) :=
  handlers_turn_404_into_500.1 "No devices found for query: [test-device]"
    (.ok ⟨true, "ok"⟩)

/-! Parsing of hosts_range in _create_cli_args, src/annet/rest_api.py lines
142-151.  A Python string is modelled as its list of characters. -/

/-- Python str.isdigit on the inputs at hand: true when the string is nonempty
and every character is a decimal digit. -/
def pyIsDigit (cs : List Char) : Bool :=
  !cs.isEmpty && cs.all Char.isDigit

def digitVal (c : Char) : Nat := c.toNat - 48

/-- Numeric value of a digit-only string, as int() computes it. -/
def digitsToNat (cs : List Char) : Nat :=
  cs.foldl (fun acc c => 10 * acc + digitVal c) 0

def digitsOnly (cs : List Char) : Except String Nat :=
  if pyIsDigit cs then .ok (digitsToNat cs)
  else .error "invalid literal for int() with base 10"

/-- Python int() on the relevant fragment: an optional single sign followed by
one or more decimal digits; anything else raises ValueError.  The whitespace
and underscore forms that int() also tolerates play no role in the handlers
and are left out. -/
def pyInt (cs : List Char) : Except String Int :=
  match cs with
  | [] => .error "invalid literal for int() with base 10"
  | c :: rest =>
    if c = '+' then (digitsOnly rest).map (fun n => (n : Int))
    else if c = '-' then (digitsOnly rest).map (fun n => -(n : Int))
    else (digitsOnly (c :: rest)).map (fun n => (n : Int))

/-- Python split with maxsplit 1 at the colon: the part before the first
colon, and the remainder after it when a colon occurs at all. -/
def splitFirstColon : List Char → List Char × Option (List Char)
  | [] => ([], none)
  | c :: rest =>
    if c = ':' then ([], some rest)
    else
      ((splitFirstColon rest).1.cons c, (splitFirstColon rest).2)

/-- Resulting hosts_range value: Python None, or slice(start, stop) with stop
itself possibly None. -/
inductive HostsRange where
  | noRange
  | slice (start : Int) (stop : Option Int)
deriving DecidableEq

/-- Translation of src/annet/rest_api.py lines 143-150: a falsy (empty)
hosts_range leaves the variable at None; a digit-only string n gives
slice(0, int(n)); otherwise a string containing a colon is split at the first
colon, stop is None for an empty stop part and int(stop part) otherwise with
ValueError propagating, and start is int(start part), again propagating
ValueError; any remaining string silently leaves hosts_range at None. -/
def parseHostsRange (cs : List Char) : Except String HostsRange :=
  if cs.isEmpty then .ok .noRange
  else if pyIsDigit cs then .ok (.slice 0 (some (digitsToNat cs)))
  else
    match splitFirstColon cs with
    | (_, none) => .ok .noRange
    | (startCs, some stopCs) =>
      match (if stopCs.isEmpty then .ok none
             else (pyInt stopCs).map some : Except String (Option Int)) with
      | .error e => .error e
      | .ok stop => (pyInt startCs).map (fun st => .slice st stop)

theorem pyIsDigit_of_digits (cs : List Char) (h1 : cs ≠ [])
    (h2 : ∀ c ∈ cs, c.isDigit) : pyIsDigit cs = true := by
  cases cs with
  | nil => cases h1 rfl
  | cons c rest => simpa [pyIsDigit, List.all_eq_true] using h2

theorem pyIsDigit_false_of_colon (cs : List Char) (h : ':' ∈ cs) :
    pyIsDigit cs = false := by
  have hall : cs.all Char.isDigit = false :=
    List.all_eq_false.mpr ⟨':', h, by decide⟩
  simp [pyIsDigit, hall]

theorem digitsOnly_of_digits (cs : List Char) (h1 : cs ≠ [])
    (h2 : ∀ c ∈ cs, c.isDigit) : digitsOnly cs = .ok (digitsToNat cs) := by
  simp [digitsOnly, pyIsDigit_of_digits cs h1 h2]

theorem pyInt_of_digits (cs : List Char) (h1 : cs ≠ [])
    (h2 : ∀ c ∈ cs, c.isDigit) :
    pyInt cs = .ok ((digitsToNat cs : Nat) : Int) := by
  cases cs with
  | nil => cases h1 rfl
  | cons c rest =>
    have hc : c.isDigit = true := h2 c (by simp)
    have hplus : ¬c = '+' := by
      intro he
      rw [he] at hc
      exact absurd hc (by decide)
    have hminus : ¬c = '-' := by
      intro he
      rw [he] at hc
      exact absurd hc (by decide)
    simp [pyInt, hplus, hminus, Except.map,
      digitsOnly_of_digits (c :: rest) (by simp) h2]

theorem splitFirstColon_of_no_colon (cs : List Char) (h : ':' ∉ cs) :
    splitFirstColon cs = (cs, none) := by
  induction cs with
  | nil => rfl
  | cons c rest ih =>
    have hc : ¬c = ':' := fun he => h (by simp [he])
    have hr : ':' ∉ rest := fun hm => h (by simp [hm])
    simp [splitFirstColon, hc, ih hr]

theorem splitFirstColon_of_append (a b : List Char) (h : ':' ∉ a) :
    splitFirstColon (a ++ ':' :: b) = (a, some b) := by
  induction a with
  | nil => simp [splitFirstColon]
  | cons c rest ih =>
    have hc : ¬c = ':' := fun he => h (by simp [he])
    have hr : ':' ∉ rest := fun hm => h (by simp [hm])
    simp [splitFirstColon, hc, ih hr]

/-- C10: in _create_cli_args, a digit-only hosts_range string a parses to
slice(0, int(a)), selecting the first int(a) hosts rather than starting at an
offset; a string of the form a:b with digit-only parts parses to
slice(int(a), int(b)), an empty stop part giving the open-ended
slice(int(a), None); and any other nonempty string without a colon is
silently ignored, hosts_range staying None. -/
theorem hosts_range_parsing
    (a b other : List Char)
    (ha : a ≠ []) (hda : ∀ c ∈ a, c.isDigit)
    (hb : b ≠ []) (hdb : ∀ c ∈ b, c.isDigit)
    (ho : other ≠ []) (hoc : ':' ∉ other)
    (hod : ¬ ∀ c ∈ other, c.isDigit) :
    parseHostsRange a = .ok (.slice 0 (some (digitsToNat a))) ∧
    parseHostsRange (a ++ ':' :: b) =
      .ok (.slice (digitsToNat a) (some (digitsToNat b))) ∧
    parseHostsRange (a ++ ':' :: []) = .ok (.slice (digitsToNat a) none) ∧
    parseHostsRange other = .ok .noRange := by
  have hna : ':' ∉ a := fun hmem => absurd (hda _ hmem) (by decide)
  have hae : a.isEmpty = false := by
    cases a with
    | nil => cases ha rfl
    | cons c r => rfl
  refine ⟨?_, ?_, ?_, ?_⟩
  · simp [parseHostsRange, hae, pyIsDigit_of_digits a ha hda]
  · have hbe : b.isEmpty = false := by
      cases b with
      | nil => cases hb rfl
      | cons c r => rfl
    have hce : (a ++ ':' :: b).isEmpty = false := by
      cases a with
      | nil => rfl
      | cons c r => rfl
    simp only [parseHostsRange, hce, Bool.false_eq_true, if_false,
      pyIsDigit_false_of_colon (a ++ ':' :: b) (by simp),
      splitFirstColon_of_append a b hna, hbe,
      pyInt_of_digits b hb hdb, pyInt_of_digits a ha hda, Except.map]
  · have hce : (a ++ ':' :: []).isEmpty = false := by
      cases a with
      | nil => rfl
      | cons c r => rfl
    simp only [parseHostsRange, hce, Bool.false_eq_true, if_false,
      pyIsDigit_false_of_colon (a ++ ':' :: []) (by simp),
      splitFirstColon_of_append a [] hna, List.isEmpty_nil, if_true,
      pyInt_of_digits a ha hda, Except.map]
  · have hoe : other.isEmpty = false := by
      cases other with
      | nil => cases ho rfl
      | cons c r => rfl
    have hall : other.all Char.isDigit = false := by
      cases hx : other.all Char.isDigit with
      | false => rfl
      | true => exact absurd (by simpa [List.all_eq_true] using hx) hod
    have hpd : pyIsDigit other = false := by simp [pyIsDigit, hall]
    simp [parseHostsRange, hoe, hpd, splitFirstColon_of_no_colon other hoc]

/-- Witness for C10: the string 10 gives slice(0, 10), 3:7 gives slice(3, 7),
5: gives the open-ended slice(5, None), and abc is silently ignored. -/
theorem hosts_range_parsing_witness :
    parseHostsRange ['1', '0'] = .ok (.slice 0 (some 10)) ∧
    parseHostsRange ['3', ':', '7'] = .ok (.slice 3 (some 7)) ∧
    parseHostsRange ['5', ':'] = .ok (.slice 5 none) ∧
    parseHostsRange ['a', 'b', 'c'] = .ok .noRange := by
  have h1 := hosts_range_parsing ['1', '0'] ['7'] ['a', 'b', 'c']
    (by decide) (by decide) (by decide) (by decide) (by decide) (by decide)
    (by decide)
  have h2 := hosts_range_parsing ['3'] ['7'] ['a', 'b', 'c']
    (by decide) (by decide) (by decide) (by decide) (by decide) (by decide)
    (by decide)
  have h3 := hosts_range_parsing ['5'] ['7'] ['a', 'b', 'c']
    (by decide) (by decide) (by decide) (by decide) (by decide) (by decide)
    (by decide)
  exact ⟨h1.1.trans (by decide), h2.2.1.trans (by decide),
    h3.2.2.1.trans (by decide), h1.2.2.2⟩

end Annet
